import Mathlib

/-!
Verification of the PUP parser (src/orbital/software/pup.cpp) against its
natural-language specification.

Modelling conventions (shallow embedding):
* Bytes are `Nat` (values below 256 in practice; XOR is `Nat.xor`, which
  preserves that range). A buffer is a `List Nat`.
* The seekable stream is a pure byte source `c : Nat → Nat` (contents by
  absolute offset) together with a current position; `seek`/`read` are
  modelled by `seekSet`/`readM` below, threading the position explicitly.
* The AES-128 primitive (Botan, external to the repository) is an abstract
  keyed block cipher `A : List Nat → BlockCipher`; CBC chaining is modelled
  generically over it. Botan's CBC encryption filter created without an
  explicit IV starts from the all-zero IV, which is how the tail
  re-encryption step of `pup_decrypt` is modelled.
* The zlib `uncompress` primitive is an abstract function
  `inflate : List Nat → Nat → Int × List Nat` returning a status code and
  the produced bytes. The source ignores the status code.
* `pup.h` (struct layouts and the flag/bit accessors of `PupSegmentEntry`)
  is not part of the given sources; those records are modelled from the
  spec with explicit fields. Likewise the named-key decryption provider
  (`ps4Crypto`) is external; the constructor is modelled over the decoded
  view an archive presents after those collaborators ran.
-/

/-- PUP_MAGIC constant from pup.cpp. -/
def PUP_MAGIC : Nat := 0x1D3D154F

/-- Modelled from the spec: the fixed PUP header record (layout lives in
pup.h, which is absent from the sources). Fields are the ones the parser
reads: magic, version, mode, endian, attr, flags and the two size fields. -/
structure PupHeader where
  magic : Nat
  version : Nat
  mode : Nat
  endian : Nat
  attr : Nat
  flags : Nat
  hdr_size : Nat
  meta_size : Nat
deriving DecidableEq, Repr

/-- Modelled from the spec: the decrypted header extension; only
`segment_count` is consumed by the parser. -/
structure PupHeaderEx where
  segment_count : Nat
deriving DecidableEq, Repr

/-- Modelled from the spec: a segment-table entry. The flag and size
accessors (`id()`, `is_info()`, `has_blocks()`, `is_encrypted()`,
`is_compressed()`, `is_signed()`, `has_digests()`, `has_extents()`,
`block_size()`, `block_count()`) are bit extractions defined in the absent
pup.h; they are modelled as plain fields. -/
structure PupSegmentEntry where
  id : Nat
  is_info : Bool
  has_blocks : Bool
  is_encrypted : Bool
  is_compressed : Bool
  is_signed : Bool
  has_digests : Bool
  has_extents : Bool
  offset : Nat
  file_size : Nat
  block_size : Nat
  block_count : Nat
deriving DecidableEq, Repr

/-- Segment crypto metadata: 16-byte data key and 16-byte data IV. -/
structure PupSegmentMeta where
  data_key : List Nat
  data_iv : List Nat
deriving DecidableEq, Repr

/-- Modelled from the spec: an extent is an (offset, size) pair locating a
block inside the content segment's byte range. -/
structure PupExtent where
  offset : Nat
  size : Nat
deriving DecidableEq, Repr

/-- Out-of-range placeholder used by `List.getD`; the parser only indexes
within `segment_count`, which equals the array lengths on every state the
constructor produces. -/
def dummyEntry : PupSegmentEntry :=
  { id := 0, is_info := false, has_blocks := false, is_encrypted := false,
    is_compressed := false, is_signed := false, has_digests := false,
    has_extents := false, offset := 0, file_size := 0, block_size := 0,
    block_count := 0 }

/-- Out-of-range placeholder for metadata lookups. -/
def dummyMeta : PupSegmentMeta := { data_key := [], data_iv := [] }

/-- Bytes of the underlying stream, read at absolute offset `off`. -/
def readBytes (c : Nat → Nat) (off n : Nat) : List Nat :=
  (List.range n).map fun i => c (off + i)

/-- Abstract 16-byte block cipher (the AES-128 primitive provided by the
external crypto library), already keyed. -/
structure BlockCipher where
  enc : List Nat → List Nat
  dec : List Nat → List Nat

/-- Byte-wise XOR of two buffers (truncates to the shorter one). -/
def xorBytes (a b : List Nat) : List Nat :=
  List.zipWith (fun x y => x ^^^ y) a b

/-- Split a buffer into consecutive 16-byte blocks (the last block may be
shorter when the length is not a multiple of 16). -/
def chunks16 (l : List Nat) : List (List Nat) :=
  (List.range ((l.length + 15) / 16)).map fun i => (l.drop (16 * i)).take 16

/-- CBC decryption over a list of ciphertext blocks: each plaintext block is
the block-cipher decryption XORed with the previous ciphertext block (the IV
for the first one). Models Botan's AES-128/CBC/NoPadding decryption pipe. -/
def cbcDecryptBlocks (C : BlockCipher) : List Nat → List (List Nat) → List (List Nat)
  | _, [] => []
  | iv, b :: bs => xorBytes (C.dec b) iv :: cbcDecryptBlocks C b bs

/-- CBC decryption of a byte buffer whose length is a multiple of 16. -/
def cbcDecrypt (C : BlockCipher) (iv : List Nat) (data : List Nat) : List Nat :=
  (cbcDecryptBlocks C iv (chunks16 data)).flatten

/-- CBC encryption over plaintext blocks; models Botan's AES-128/CBC
encryption pipe. -/
def cbcEncryptBlocks (C : BlockCipher) : List Nat → List (List Nat) → List (List Nat)
  | _, [] => []
  | iv, b :: bs =>
    let cb := C.enc (xorBytes b iv)
    cb :: cbcEncryptBlocks C cb bs

/-- CBC encryption of a byte buffer. -/
def cbcEncrypt (C : BlockCipher) (iv : List Nat) (data : List Nat) : List Nat :=
  (cbcEncryptBlocks C iv (chunks16 data)).flatten

/-- One in-place XOR of the loop `for i in [0, count): buf[start+i] ^= ks[i]`
at the end of `pup_decrypt`. -/
def xorAt (buf : List Nat) (idx v : Nat) : List Nat :=
  buf.set idx (buf.getD idx 0 ^^^ v)

/-- The tail-recovery loop of `pup_decrypt`: XOR `ks[0..count)` into
`buf[start..start+count)`. -/
def tailXorLoop (buf : List Nat) (start : Nat) (ks : List Nat) : Nat → List Nat
  | 0 => buf
  | i + 1 => xorAt (tailXorLoop buf start ks i) (start + i) (ks.getD i 0)

/-- Embedding of `pup_decrypt` (pup.cpp lines 30-61). `A` keys the abstract
AES-128 primitive with the 16-byte data key; `junk` models the uninitialized
stack array `prev_block` that the source re-encrypts when the buffer has an
unaligned tail but no aligned 16-byte block to capture (undefined behaviour
in the source, only reachable for buffers shorter than 16 bytes).
Steps, mirroring the source: compute the aligned size `len & ~0xF` and the
overflow `len & 0xF`; capture the last aligned ciphertext block before
decrypting; CBC-decrypt the aligned part in place; if a tail exists,
CBC-encrypt the captured block (Botan default all-zero IV) and XOR the first
`overflow` bytes of the result into the tail. -/
def pup_decrypt (A : List Nat → BlockCipher) (junk : List Nat)
    (meta : PupSegmentMeta) (buffer : List Nat) : List Nat :=
  let C := A meta.data_key
  let size_aligned := buffer.length - buffer.length % 16
  let overflow := buffer.length % 16
  let prev_block :=
    if overflow ≠ 0 ∧ 16 ≤ size_aligned then
      (buffer.drop (size_aligned - 16)).take 16
    else junk
  let buf1 := cbcDecrypt C meta.data_iv (buffer.take size_aligned) ++ buffer.drop size_aligned
  if overflow = 0 then buf1
  else
    let next_block := cbcEncrypt C (List.replicate 16 0) prev_block
    tailXorLoop buf1 size_aligned next_block overflow

/-- Modelled from the spec: `ps4Crypto().decrypt` invoked with an explicit
AES-128-CBC key/IV (pup.cpp lines 175-176). The crypto provider
(crypto_ps4) is not part of the given sources; per spec sections 4.4 and 6
its raw AES-128-CBC primitive with explicit key/IV is the Block Decryptor
routine, i.e. `pup_decrypt`. -/
def crypto_decrypt (A : List Nat → BlockCipher) (junk : List Nat)
    (meta : PupSegmentMeta) (block : List Nat) : List Nat :=
  pup_decrypt A junk meta block

/-- Error taxonomy from spec section 7, mapped onto the source's failure
sites: the constructor's header asserts (FormatError / UnsupportedFeatureError),
the `find` overloads' std::out_of_range (NotFoundError), the
std::runtime_error("Unimplemented") sites, and the decompression failure the
spec ascribes to the Block Decompressor (DecompressError). -/
inductive PupError where
  | FormatError
  | UnsupportedFeatureError
  | NotFoundError
  | Unimplemented
  | DecompressError
deriving DecidableEq, Repr

/-- The parser's own state after construction: header, header extension and
the two parallel segment arrays. -/
structure PupParser where
  header : PupHeader
  headerEx : PupHeaderEx
  segEntries : List PupSegmentEntry
  segMetas : List PupSegmentMeta
deriving DecidableEq, Repr

/-- Modelled from the spec: the decoded view of an archive. `Stream.read_t`,
the named-key decryptions ("pup.hdr", "pup.root_key") and the
reinterpret-casts of the decrypted buffers live in pup.h and in external
collaborators absent from the sources; an archive is therefore modelled by
the parsed header plus the record sequences those collaborators yield. -/
structure PupArchive where
  header : PupHeader
  headerEx : PupHeaderEx
  entryAt : Nat → PupSegmentEntry
  metaAt : Nat → PupSegmentMeta

/-- Embedding of the constructor `PupParser::PupParser` (pup.cpp lines
64-104), with the source's check order: magic, version, mode, endian, attr
(spec: FormatError), then the JIG flag (spec: UnsupportedFeatureError), then
the two segment arrays are built (`segment_count` entries each), and finally
`verify` raises Unimplemented. -/
def PupParser.construct (arc : PupArchive) (verify : Bool) :
    Except PupError PupParser :=
  if arc.header.magic ≠ PUP_MAGIC then .error .FormatError
  else if arc.header.version ≠ 0 then .error .FormatError
  else if arc.header.mode ≠ 1 then .error .FormatError
  else if arc.header.endian ≠ 1 then .error .FormatError
  else if arc.header.attr ≠ 0x12 then .error .FormatError
  else if arc.header.flags &&& 1 ≠ 0 then .error .UnsupportedFeatureError
  else
    let segEntries := (List.range arc.headerEx.segment_count).map arc.entryAt
    let segMetas := (List.range arc.headerEx.segment_count).map arc.metaAt
    if verify then .error .Unimplemented
    else .ok { header := arc.header, headerEx := arc.headerEx,
               segEntries := segEntries, segMetas := segMetas }

/-- The scan loop of `PupParser::find(pred)` (pup.cpp lines 194-201),
written with explicit fuel: `fuel` iterations remain, `i` is the current
index; the loop runs while `i < segment_count`, so `findPred` starts it with
`fuel = segment_count`, `i = 0`. -/
def findPredGo (st : PupParser) (p : PupSegmentEntry → PupSegmentMeta → Bool) :
    Nat → Nat → Except PupError Nat
  | 0, _ => .error .NotFoundError
  | fuel + 1, i =>
    if p (st.segEntries.getD i dummyEntry) (st.segMetas.getD i dummyMeta)
    then .ok i
    else findPredGo st p fuel (i + 1)

/-- `PupParser::find(pred)`: first index in `0..segment_count` whose entry
and meta satisfy the predicate; std::out_of_range (NotFoundError) if none. -/
def PupParser.findPred (st : PupParser)
    (p : PupSegmentEntry → PupSegmentMeta → Bool) : Except PupError Nat :=
  findPredGo st p st.headerEx.segment_count 0

/-- `PupParser::find(id)` (pup.cpp lines 203-207): id matches and the entry
is not an info segment. -/
def PupParser.find (st : PupParser) (id : Nat) : Except PupError Nat :=
  st.findPred fun entry _ => entry.id == id && !entry.is_info

/-- `PupParser::find_info(id)` (pup.cpp lines 209-213): id matches and the
entry is an info segment. -/
def PupParser.find_info (st : PupParser) (id : Nat) : Except PupError Nat :=
  st.findPred fun entry _ => entry.id == id && entry.is_info

/-- Machine state a method call runs against: the parser object plus the
shared stream's current position. -/
structure PupMachine where
  parser : PupParser
  pos : Nat
deriving DecidableEq, Repr

/-- `s.seek(off, StreamSeek::Set)`. -/
def seekSet (m : PupMachine) (off : Nat) : PupMachine :=
  { m with pos := off }

/-- `s.read(n, buf)`: `n` bytes from the current position, advancing it. -/
def readM (c : Nat → Nat) (m : PupMachine) (n : Nat) : List Nat × PupMachine :=
  (readBytes c m.pos n, { m with pos := m.pos + n })

/-- Byte size of a `PupDigest` record. Modelled from the spec: a fixed-size
per-block digest record whose exact layout lives in the absent pup.h; the
parsed digests are dead values in `get_blocked`, so only the size (the
offset shift it causes before the extent records) is observable. -/
def digestSize : Nat := 32

/-- Little-endian 32-bit read at position `p` of a buffer. -/
def readLE32 (l : List Nat) (p : Nat) : Nat :=
  l.getD p 0 + 256 * l.getD (p + 1) 0 + 65536 * l.getD (p + 2) 0 +
    16777216 * l.getD (p + 3) 0

/-- Modelled from the spec: `info_stream.read_t<PupExtent>()` repeated
`block_count` times (pup.cpp lines 154-158); a PupExtent is stored as two
consecutive little-endian 32-bit fields (offset, size), following the
optional digest table which starts the info buffer. -/
def parseExtents (buf : List Nat) (start k : Nat) : List PupExtent :=
  (List.range k).map fun i =>
    { offset := readLE32 buf (start + 8 * i), size := readLE32 buf (start + 8 * i + 4) }

/-- Observable content of an `n`-byte region of the output vector after the
source writes `bytes` into it: `segment.resize` value-initializes the new
`n` bytes to zero, then `memcpy`/`uncompress` writes `bytes` from the start
of the region. Bytes of `bytes` beyond `n` land outside the vector's storage
(an out-of-bounds write in the source, flagged in spec section 9) and are
not part of the returned buffer. -/
def writeRegion (n : Nat) (bytes : List Nat) : List Nat :=
  bytes.take n ++ List.replicate (n - bytes.length) 0

/-- One iteration of the extent loop of `PupParser::get_blocked` (pup.cpp
lines 163-186), threading (left_size, segment, machine):
seek to `entry.offset + extent.offset`, read `extent.size` bytes, compute
`cur_zsize = (extent.size & ~0xF) - (extent.size & 0xF)` (on an unsigned C
type clearing the low nibble is `size - size % 16`) and
`cur_size = min(block_size, left_size)`; the `is_signed` branch is a no-op
(TODO in the source); decrypt the block if the entry is encrypted; append
the block's region to the segment (inflated when compressed, raw otherwise). -/
def processExtentM (A : List Nat → BlockCipher) (junk : List Nat)
    (inflate : List Nat → Nat → Int × List Nat) (c : Nat → Nat)
    (entry : PupSegmentEntry) (meta : PupSegmentMeta) (block_size : Nat)
    (acc : Nat × List Nat × PupMachine) (extent : PupExtent) :
    Nat × List Nat × PupMachine :=
  let m1 := seekSet acc.2.2 (entry.offset + extent.offset)
  let r := readM c m1 extent.size
  let block := r.1
  let cur_zsize := (extent.size - extent.size % 16) - extent.size % 16
  let cur_size := min block_size acc.1
  let left' := acc.1 - cur_size
  let block' := if entry.is_encrypted then crypto_decrypt A junk meta block else block
  let region :=
    if entry.is_compressed then writeRegion cur_size (inflate (block'.take cur_zsize) cur_size).2
    else writeRegion cur_size block'
  (left', acc.2.1 ++ region, r.2)

/-- Embedding of `PupParser::get_blocked` (pup.cpp lines 118-188). The
companion info segment is resolved by `find_info(index)` — the argument is
the target's table index, as in the source (line 128). The info segment's
bytes are read, decrypted if needed (compressed info segments are
Unimplemented; the signed branch is a no-op), the digest table is skipped
and `block_count` extents are parsed, then the extent loop assembles the
output starting from `left_size = entry.file_size`. -/
def PupParser.get_blocked (A : List Nat → BlockCipher) (junk : List Nat)
    (inflate : List Nat → Nat → Int × List Nat) (c : Nat → Nat)
    (m : PupMachine) (index : Nat) : Except PupError (List Nat) × PupMachine :=
  let entry := m.parser.segEntries.getD index dummyEntry
  let meta := m.parser.segMetas.getD index dummyMeta
  let block_size := entry.block_size
  let block_count := entry.block_count
  match m.parser.find_info index with
  | .error e => (.error e, m)
  | .ok info_index =>
    let info_entry := m.parser.segEntries.getD info_index dummyEntry
    let info_meta := m.parser.segMetas.getD info_index dummyMeta
    let m1 := seekSet m info_entry.offset
    let r := readM c m1 info_entry.file_size
    let info_buffer :=
      if info_entry.is_encrypted then pup_decrypt A junk info_meta r.1 else r.1
    if info_entry.is_compressed then (.error .Unimplemented, r.2)
    else
      let dstart := if info_entry.has_digests then block_count * digestSize else 0
      let extents :=
        if info_entry.has_extents then parseExtents info_buffer dstart block_count else []
      let res := extents.foldl (processExtentM A junk inflate c entry meta block_size)
        (entry.file_size, ([] : List Nat), r.2)
      (.ok res.2.1, res.2.2)

/-- `PupParser::get_nonblocked` (pup.cpp lines 190-192): permanently
Unimplemented. -/
def PupParser.get_nonblocked (m : PupMachine) (_index : Nat) :
    Except PupError (List Nat) × PupMachine :=
  (.error .Unimplemented, m)

/-- Embedding of `PupParser::get` (pup.cpp lines 109-116): resolve the id to
an index, then dispatch on `has_blocks`. -/
def PupParser.get (A : List Nat → BlockCipher) (junk : List Nat)
    (inflate : List Nat → Nat → Int × List Nat) (c : Nat → Nat)
    (m : PupMachine) (id : Nat) : Except PupError (List Nat) × PupMachine :=
  match m.parser.find id with
  | .error e => (.error e, m)
  | .ok index =>
    if (m.parser.segEntries.getD index dummyEntry).has_blocks
    then PupParser.get_blocked A junk inflate c m index
    else PupParser.get_nonblocked m index

/-- A header satisfying all the constructor's format asserts: magic,
version, mode, endian (LITTLE = 1), attr. -/
def goodHeader (h : PupHeader) : Prop :=
  h.magic = PUP_MAGIC ∧ h.version = 0 ∧ h.mode = 1 ∧ h.endian = 1 ∧ h.attr = 0x12

instance (h : PupHeader) : Decidable (goodHeader h) := by
  unfold goodHeader; infer_instance

instance {E X : Type} [DecidableEq E] [DecidableEq X] : DecidableEq (Except E X) :=
  fun a b =>
  match a, b with
  | .ok x, .ok y =>
    if h : x = y then .isTrue (by rw [h])
    else .isFalse (by intro hc; cases hc; exact h rfl)
  | .error x, .error y =>
    if h : x = y then .isTrue (by rw [h])
    else .isFalse (by intro hc; cases hc; exact h rfl)
  | .ok _, .error _ => .isFalse (by intro hc; cases hc)
  | .error _, .ok _ => .isFalse (by intro hc; cases hc)

/-! Concrete fixtures used by witnesses and counterexamples. -/

/-- Valid header used by the concrete archives below. -/
def hdrGood : PupHeader :=
  { magic := PUP_MAGIC, version := 0, mode := 1, endian := 1, attr := 0x12,
    flags := 0, hdr_size := 0x200, meta_size := 0x100 }

/-- Concrete well-formed block cipher (16-byte blocks) standing in for AES
in witnesses: both directions pad/truncate to 16 bytes, so block outputs
always have length 16. -/
def cipher16 : BlockCipher :=
  { enc := fun b => (b.map (fun x => (x + 3) % 256) ++ List.replicate 16 0).take 16,
    dec := fun b => (b.map (fun x => (x + 253) % 256) ++ List.replicate 16 0).take 16 }

/-- Keyed-cipher family for witnesses: every key yields `cipher16`. -/
def A0 : List Nat → BlockCipher := fun _ => cipher16

/-- Concrete stand-in for the uninitialized `prev_block` stack buffer. -/
def junk0 : List Nat := List.replicate 16 7

/-- Well-behaved decompression stand-in: reports success and returns the
input truncated to the expected size. -/
def inflate0 : List Nat → Nat → Int × List Nat := fun z u => (0, z.take u)

/-- Decompression stand-in that signals corruption (zlib Z_DATA_ERROR = -3)
on every call and produces no bytes. -/
def inflateBad : List Nat → Nat → Int × List Nat := fun _ _ => (-3, [])

/-- All-zero key/IV metadata record. -/
def metaZero : PupSegmentMeta :=
  { data_key := List.replicate 16 0, data_iv := List.replicate 16 0 }

/-- Spec section 8 scenario target segment: 3 blocks, block_size 16,
file_size 36, unencrypted, uncompressed, content at offset 1000. -/
def targetC2 : PupSegmentEntry :=
  { id := 42, is_info := false, has_blocks := true, is_encrypted := false,
    is_compressed := false, is_signed := false, has_digests := false,
    has_extents := false, offset := 1000, file_size := 36, block_size := 16,
    block_count := 3 }

/-- Companion info segment for the scenario: id 0 (= the target's table
index), extents only, 24 bytes at offset 100. -/
def infoC2 : PupSegmentEntry :=
  { id := 0, is_info := true, has_blocks := false, is_encrypted := false,
    is_compressed := false, is_signed := false, has_digests := false,
    has_extents := true, offset := 100, file_size := 24, block_size := 0,
    block_count := 0 }

/-- Parser state for the spec scenario: two segments, the target and its
info companion. -/
def stC2 : PupParser :=
  { header := hdrGood, headerEx := { segment_count := 2 },
    segEntries := [targetC2, infoC2], segMetas := [metaZero, metaZero] }

/-- Byte encoding of the extent table [(0,16), (16,16), (16,20)]. -/
def extentBytesC2 : List Nat :=
  [0, 0, 0, 0, 16, 0, 0, 0,
   16, 0, 0, 0, 16, 0, 0, 0,
   16, 0, 0, 0, 20, 0, 0, 0]

/-- Concrete stream contents whose info region (offsets 100-123) encodes the
scenario's extent table. -/
def cW : Nat → Nat := fun i =>
  if i < 100 then i % 256
  else if i < 124 then extentBytesC2.getD (i - 100) 0
  else (i + 5) % 256

/-- Target segment of the C5 counterexample: as the scenario target, but
compressed. -/
def targetC5 : PupSegmentEntry :=
  { targetC2 with is_compressed := true }

/-- Parser state with a compressed blocked segment. -/
def stC5 : PupParser :=
  { stC2 with segEntries := [targetC5, infoC2] }

/-- C1 counterexample content segment: id 7 at table index 0, one 4-byte
block at offset 1000. -/
def targetC1 : PupSegmentEntry :=
  { id := 7, is_info := false, has_blocks := true, is_encrypted := false,
    is_compressed := false, is_signed := false, has_digests := false,
    has_extents := false, offset := 1000, file_size := 4, block_size := 4,
    block_count := 1 }

/-- Info segment whose id (7) equals the target entry's id; its extent table
at offset 200 points at bytes 1000-1003. -/
def infoC1a : PupSegmentEntry :=
  { id := 7, is_info := true, has_blocks := false, is_encrypted := false,
    is_compressed := false, is_signed := false, has_digests := false,
    has_extents := true, offset := 200, file_size := 8, block_size := 0,
    block_count := 0 }

/-- Info segment whose id (0) equals the target's table index; its extent
table at offset 300 points at bytes 1008-1011. -/
def infoC1b : PupSegmentEntry :=
  { id := 0, is_info := true, has_blocks := false, is_encrypted := false,
    is_compressed := false, is_signed := false, has_digests := false,
    has_extents := true, offset := 300, file_size := 8, block_size := 0,
    block_count := 0 }

/-- Parser state for the C1 counterexample: the target plus two info
segments, one sharing its id, one sharing its index. -/
def stC1p : PupParser :=
  { header := hdrGood, headerEx := { segment_count := 3 },
    segEntries := [targetC1, infoC1a, infoC1b],
    segMetas := [metaZero, metaZero, metaZero] }

/-- Stream contents for the C1 counterexample: extent (0,4) encoded at 200,
extent (8,4) encoded at 300, block bytes [1,2,3,4] at 1000 and [9,9,9,9] at
1008. -/
def cA : Nat → Nat := fun i =>
  if 200 ≤ i ∧ i < 208 then [0, 0, 0, 0, 4, 0, 0, 0].getD (i - 200) 0
  else if 300 ≤ i ∧ i < 308 then [8, 0, 0, 0, 4, 0, 0, 0].getD (i - 300) 0
  else if 1000 ≤ i ∧ i < 1004 then [1, 2, 3, 4].getD (i - 1000) 0
  else if 1008 ≤ i ∧ i < 1012 then [9, 9, 9, 9].getD (i - 1008) 0
  else 0

/-- Concrete valid archive (two segments) for constructor witnesses. -/
def arc0 : PupArchive :=
  { header := hdrGood, headerEx := { segment_count := 2 },
    entryAt := fun i => if i = 0 then targetC2 else infoC2,
    metaAt := fun _ => metaZero }

/-- The parser state `arc0`'s successful construction yields. -/
def st0 : PupParser :=
  { header := hdrGood, headerEx := { segment_count := 2 },
    segEntries := [targetC2, infoC2], segMetas := [metaZero, metaZero] }

/-- Archive with the JIG flag set (flags bit 0) but an otherwise valid
header. -/
def arcJig : PupArchive :=
  { arc0 with header := { hdrGood with flags := 1 } }

/-- Archive with a corrupted magic. -/
def arcBadMagic : PupArchive :=
  { arc0 with header := { hdrGood with magic := 0xDEAD } }

/-- Decompression stand-in reporting a different (non-zero) status code
than `inflate0` but producing the same bytes. -/
def inflateAlt : List Nat → Nat → Int × List Nat := fun z u => (1, z.take u)

/-- Encrypted variant of the scenario target segment. -/
def entryEncW : PupSegmentEntry := { targetC2 with is_encrypted := true }

/-- One-extent list for the block-decryption witness. -/
def extsW : List PupExtent := [⟨0, 5⟩]

/-- Concrete loop accumulator (left_size, segment, machine). -/
def accW : Nat × List Nat × PupMachine := (10, [], ⟨stC2, 3⟩)

/-- Concrete stream contents for the block-decryption witness. -/
def cw4 : Nat → Nat := fun i => (i + 1) % 256

/-- Spec-side description for the refinement claim about block decryption:
the same loop step as `processExtentM`, but consuming a pre-decrypted block
(paired with its extent) instead of decrypting inside the loop. The
pre-decrypted blocks are produced independently of each other by mapping
the Block Decryptor over the raw blocks (see `claim_C4`). -/
def assembleFromDecrypted (inflate : List Nat → Nat → Int × List Nat)
    (entry : PupSegmentEntry) (block_size : Nat)
    (acc : Nat × List Nat × PupMachine) (p : PupExtent × List Nat) :
    Nat × List Nat × PupMachine :=
  let m2 : PupMachine := { acc.2.2 with pos := entry.offset + p.1.offset + p.1.size }
  let cur_zsize := (p.1.size - p.1.size % 16) - p.1.size % 16
  let cur_size := min block_size acc.1
  let region :=
    if entry.is_compressed then writeRegion cur_size (inflate (p.2.take cur_zsize) cur_size).2
    else writeRegion cur_size p.2
  (acc.1 - cur_size, acc.2.1 ++ region, m2)

/-! Helper lemmas. -/

@[simp] theorem readBytes_length (c : Nat → Nat) (off n : Nat) :
    (readBytes c off n).length = n := by
  simp [readBytes]

@[simp] theorem writeRegion_length (n : Nat) (b : List Nat) :
    (writeRegion n b).length = n := by
  simp [writeRegion]; omega

theorem writeRegion_of_length {n : Nat} {b : List Nat} (h : b.length = n) :
    writeRegion n b = b := by
  simp [writeRegion, h, List.take_of_length_le (le_of_eq h)]

theorem writeRegion_of_le {n : Nat} {b : List Nat} (h : n ≤ b.length) :
    writeRegion n b = b.take n := by
  simp [writeRegion, Nat.sub_eq_zero_of_le h]

theorem zipWith_take_right (f : Nat → Nat → Nat) :
    ∀ (l l' : List Nat), List.zipWith f l (l'.take l.length) = List.zipWith f l l' := by
  intro l
  induction l with
  | nil => intro l'; simp
  | cons a l ih =>
    intro l'
    cases l' with
    | nil => simp
    | cons b l' => simp [ih]

theorem getD_append_len (l₁ l₂ : List Nat) (n d : Nat) :
    (l₁ ++ l₂).getD (l₁.length + n) d = l₂.getD n d := by
  rw [List.getD_append_right l₁ l₂ d _ (Nat.le_add_right _ _)]
  simp

theorem set_append_len : ∀ (l₁ l₂ : List Nat) (n a : Nat),
    (l₁ ++ l₂).set (l₁.length + n) a = l₁ ++ l₂.set n a := by
  intro l₁
  induction l₁ with
  | nil => intro l₂ n a; simp
  | cons x xs ih =>
    intro l₂ n a
    have : (x :: xs).length + n = (xs.length + n) + 1 := by simp; omega
    rw [this]
    simp [List.set, ih]

theorem set_append_ge (l₁ l₂ : List Nat) (n a : Nat) (h : l₁.length ≤ n) :
    (l₁ ++ l₂).set n a = l₁ ++ l₂.set (n - l₁.length) a := by
  obtain ⟨k, rfl⟩ : ∃ k, n = l₁.length + k := ⟨n - l₁.length, by omega⟩
  rw [set_append_len, show l₁.length + k - l₁.length = k by omega]

/-- Unrolling the tail loop of `pup_decrypt`: XORing `ks` into the `i` bytes
after a prefix `p` rewrites exactly those bytes. -/
theorem tailXorLoop_spec (p t ks : List Nat) :
    ∀ i, i ≤ t.length → i ≤ ks.length →
      tailXorLoop (p ++ t) p.length ks i =
        p ++ (List.zipWith (fun x y => x ^^^ y) (t.take i) (ks.take i) ++ t.drop i) := by
  intro i
  induction i with
  | zero => intro _ _; simp [tailXorLoop]
  | succ i ih =>
    intro hit hks
    have hit' : i ≤ t.length := by omega
    have hks' : i ≤ ks.length := by omega
    have hlt : i < t.length := by omega
    have hltk : i < ks.length := by omega
    rw [tailXorLoop, ih hit' hks']
    unfold xorAt
    set Z := List.zipWith (fun x y => x ^^^ y) (t.take i) (ks.take i) with hZdef
    have hZ : Z.length = i := by
      simp [hZdef, List.length_zipWith, List.length_take]
      omega
    rw [getD_append_len, set_append_len]
    have hksi : ks.getD i 0 = ks[i] := by
      simp [List.getD_eq_getElem?_getD, List.getElem?_eq_getElem hltk]
    have h1 : (Z ++ t.drop i).getD i 0 = t[i] := by
      rw [List.getD_append_right _ _ _ _ (by omega), show i - Z.length = 0 by omega]
      rw [List.drop_eq_getElem_cons hlt]
      rfl
    have h2 : (Z ++ t.drop i).set i (((Z ++ t.drop i).getD i 0) ^^^ ks.getD i 0) =
        Z ++ (t[i] ^^^ ks[i]) :: t.drop (i + 1) := by
      rw [h1, hksi, set_append_ge _ _ _ _ (by omega), show i - Z.length = 0 by omega]
      rw [List.drop_eq_getElem_cons hlt]
      rfl
    rw [h2]
    have h3 : t.take (i + 1) = t.take i ++ [t[i]] := by
      rw [List.take_succ, List.getElem?_eq_getElem hlt]
      rfl
    have h4 : ks.take (i + 1) = ks.take i ++ [ks[i]] := by
      rw [List.take_succ, List.getElem?_eq_getElem hltk]
      rfl
    have h5 : List.zipWith (fun x y => x ^^^ y) (t.take (i + 1)) (ks.take (i + 1)) =
        Z ++ [t[i] ^^^ ks[i]] := by
      rw [h3, h4, List.zipWith_append]
      · rfl
      · simp [List.length_take]; omega
    rw [h5]
    simp

/-- Soundness of the scan loop: a returned index is in range, satisfies the
predicate, and is minimal among indices at or after the start. -/
theorem findPredGo_ok_spec (st : PupParser)
    (p : PupSegmentEntry → PupSegmentMeta → Bool) :
    ∀ fuel i k, findPredGo st p fuel i = .ok k →
      i ≤ k ∧ k < i + fuel ∧
      p (st.segEntries.getD k dummyEntry) (st.segMetas.getD k dummyMeta) = true ∧
      ∀ j, i ≤ j → j < k →
        p (st.segEntries.getD j dummyEntry) (st.segMetas.getD j dummyMeta) = false := by
  intro fuel
  induction fuel with
  | zero => intro i k h; simp [findPredGo] at h
  | succ n ih =>
    intro i k h
    rw [findPredGo] at h
    cases hpb : p (st.segEntries.getD i dummyEntry) (st.segMetas.getD i dummyMeta) with
    | true =>
      rw [hpb] at h
      simp at h
      subst h
      exact ⟨le_refl _, by omega, hpb, fun j h1 h2 => absurd h2 (by omega)⟩
    | false =>
      rw [hpb] at h
      simp at h
      obtain ⟨h1, h2, h3, h4⟩ := ih (i + 1) k h
      refine ⟨by omega, by omega, h3, fun j hj1 hj2 => ?_⟩
      rcases Nat.eq_or_lt_of_le hj1 with rfl | hj
      · exact hpb
      · exact h4 j (by omega) hj2

/-- A failing scan can only fail with NotFoundError, and only when no index
in the scanned range satisfies the predicate. -/
theorem findPredGo_err_spec (st : PupParser)
    (p : PupSegmentEntry → PupSegmentMeta → Bool) :
    ∀ fuel i e, findPredGo st p fuel i = .error e →
      e = .NotFoundError ∧
      ∀ j, i ≤ j → j < i + fuel →
        p (st.segEntries.getD j dummyEntry) (st.segMetas.getD j dummyMeta) = false := by
  intro fuel
  induction fuel with
  | zero =>
    intro i e h
    simp [findPredGo] at h
    exact ⟨h.symm, fun j h1 h2 => absurd h2 (by omega)⟩
  | succ n ih =>
    intro i e h
    rw [findPredGo] at h
    cases hpb : p (st.segEntries.getD i dummyEntry) (st.segMetas.getD i dummyMeta) with
    | true => rw [hpb] at h; simp at h
    | false =>
      rw [hpb] at h
      simp at h
      obtain ⟨h1, h2⟩ := ih (i + 1) e h
      refine ⟨h1, fun j hj1 hj2 => ?_⟩
      rcases Nat.eq_or_lt_of_le hj1 with rfl | hj
      · exact hpb
      · exact h2 j (by omega) (by omega)

/-- Completeness: if no index in range satisfies the predicate the scan
fails with NotFoundError. -/
theorem findPredGo_none (st : PupParser)
    (p : PupSegmentEntry → PupSegmentMeta → Bool) :
    ∀ fuel i,
      (∀ j, i ≤ j → j < i + fuel →
        p (st.segEntries.getD j dummyEntry) (st.segMetas.getD j dummyMeta) = false) →
      findPredGo st p fuel i = .error .NotFoundError := by
  intro fuel
  induction fuel with
  | zero => intro i _; simp [findPredGo]
  | succ n ih =>
    intro i hnone
    rw [findPredGo]
    have h0 : p (st.segEntries.getD i dummyEntry) (st.segMetas.getD i dummyMeta) = false :=
      hnone i (le_refl _) (by omega)
    rw [h0]
    simp
    exact ih (i + 1) fun j h1 h2 => hnone j (by omega) (by omega)

@[simp] theorem chunks16_length (l : List Nat) :
    (chunks16 l).length = (l.length + 15) / 16 := by
  simp [chunks16]

theorem chunks16_mem_length (l : List Nat) (hl : l.length % 16 = 0) :
    ∀ b ∈ chunks16 l, b.length = 16 := by
  intro b hb
  simp only [chunks16, List.mem_map, List.mem_range] at hb
  obtain ⟨i, hi, rfl⟩ := hb
  simp only [List.length_take, List.length_drop]
  omega

theorem chunks16_single {l : List Nat} (h : l.length = 16) : chunks16 l = [l] := by
  have ht : l.take 16 = l := List.take_of_length_le (by omega)
  unfold chunks16
  rw [h]
  norm_num
  rw [show List.range 1 = [0] from rfl]
  simp [ht]

theorem cbcDecryptBlocks_flatten_length (C : BlockCipher)
    (hdec : ∀ b, (C.dec b).length = 16) :
    ∀ (bs : List (List Nat)) (iv : List Nat), iv.length = 16 →
      (∀ b ∈ bs, b.length = 16) →
      (cbcDecryptBlocks C iv bs).flatten.length = 16 * bs.length := by
  intro bs
  induction bs with
  | nil => intro iv _ _; simp [cbcDecryptBlocks]
  | cons b bs ih =>
    intro iv hiv hmem
    have hb : b.length = 16 := hmem b (by simp)
    have := ih b hb (fun x hx => hmem x (by simp [hx]))
    simp only [cbcDecryptBlocks, List.flatten_cons, List.length_append, this]
    simp [xorBytes, List.length_zipWith, hdec, hiv]
    omega

theorem cbcDecrypt_length (C : BlockCipher) (iv l : List Nat)
    (hdec : ∀ b, (C.dec b).length = 16) (hiv : iv.length = 16)
    (hl : l.length % 16 = 0) : (cbcDecrypt C iv l).length = l.length := by
  unfold cbcDecrypt
  rw [cbcDecryptBlocks_flatten_length C hdec _ iv hiv (chunks16_mem_length l hl)]
  rw [chunks16_length]
  omega

theorem cbcEncrypt_single (C : BlockCipher) (iv : List Nat) {b : List Nat}
    (hb : b.length = 16) : cbcEncrypt C iv b = C.enc (xorBytes b iv) := by
  unfold cbcEncrypt
  rw [chunks16_single hb]
  simp [cbcEncryptBlocks]

/-- The extent loop never writes the parser's fields: folding
`processExtentM` leaves the machine's parser component unchanged. -/
theorem foldl_processExtentM_frame (A : List Nat → BlockCipher) (junk : List Nat)
    (inflate : List Nat → Nat → Int × List Nat) (c : Nat → Nat)
    (entry : PupSegmentEntry) (meta : PupSegmentMeta) (bs : Nat) :
    ∀ (exts : List PupExtent) (acc : Nat × List Nat × PupMachine),
      ((exts.foldl (processExtentM A junk inflate c entry meta bs) acc).2.2).parser =
        acc.2.2.parser := by
  intro exts
  induction exts with
  | nil => intro acc; rfl
  | cons e es ih =>
    intro acc
    rw [List.foldl_cons, ih]
    simp [processExtentM, readM, seekSet]

/-- One loop iteration only looks at the byte component of the
decompression primitive's result; the status code is dead. -/
theorem processExtentM_inflate (A : List Nat → BlockCipher) (junk : List Nat)
    (i1 i2 : List Nat → Nat → Int × List Nat)
    (h12 : ∀ z u, (i1 z u).2 = (i2 z u).2) (c : Nat → Nat)
    (entry : PupSegmentEntry) (meta : PupSegmentMeta) (bs : Nat)
    (acc : Nat × List Nat × PupMachine) (e : PupExtent) :
    processExtentM A junk i1 c entry meta bs acc e =
      processExtentM A junk i2 c entry meta bs acc e := by
  simp only [processExtentM, h12]

theorem foldl_processExtentM_inflate (A : List Nat → BlockCipher) (junk : List Nat)
    (i1 i2 : List Nat → Nat → Int × List Nat)
    (h12 : ∀ z u, (i1 z u).2 = (i2 z u).2) (c : Nat → Nat)
    (entry : PupSegmentEntry) (meta : PupSegmentMeta) (bs : Nat)
    (exts : List PupExtent) (acc : Nat × List Nat × PupMachine) :
    exts.foldl (processExtentM A junk i1 c entry meta bs) acc =
      exts.foldl (processExtentM A junk i2 c entry meta bs) acc :=
  List.foldl_ext _ _ acc fun a b _ =>
    processExtentM_inflate A junk i1 i2 h12 c entry meta bs a b

/-- The low-nibble mask: on any C unsigned type wide enough for `n`,
`n & ~0xF` keeps the multiples of 16. -/
theorem and_mask_high (n : Nat) (hn : n < 2 ^ 64) :
    n &&& 0xFFFFFFFFFFFFFFF0 = 16 * (n / 16) := by
  have hM : (0xFFFFFFFFFFFFFFF0 : Nat) = (2 ^ 60 - 1) <<< 4 := by
    norm_num [Nat.shiftLeft_eq]
  have h16 : 16 * (n / 16) = (n >>> 4) <<< 4 := by
    rw [Nat.shiftLeft_eq, Nat.shiftRight_eq_div_pow]
    norm_num
    ring
  apply Nat.eq_of_testBit_eq
  intro i
  rw [hM, h16]
  simp only [Nat.testBit_and, Nat.testBit_shiftLeft, Nat.testBit_shiftRight,
    Nat.testBit_two_pow_sub_one]
  by_cases h4 : 4 ≤ i
  · by_cases h64 : i < 64
    · have h44 : 4 + (i - 4) = i := by omega
      simp [ge_iff_le, h4, h44, show i - 4 < 60 by omega]
    · have hbf : n.testBit i = false :=
        Nat.testBit_lt_two_pow
          (lt_of_lt_of_le hn (Nat.pow_le_pow_right (by norm_num) (by omega)))
      simp [ge_iff_le, h4, hbf, show ¬(i - 4 < 60) by omega]
  · simp [ge_iff_le, h4]

/-- The literal `cur_zsize` formula of the claim, reduced to the model's
arithmetic. -/
theorem cur_zsize_mask (n : Nat) (hn : n < 2 ^ 64) :
    (n &&& 0xFFFFFFFFFFFFFFF0) - (n &&& 0xF) = (n - n % 16) - n % 16 := by
  have h1 : n &&& 0xF = n % 16 := by
    have := Nat.and_pow_two_sub_one_eq_mod n 4
    norm_num at this
    exact this
  rw [and_mask_high n hn, h1]
  omega

/-! Claim theorems. -/

/-- C1 (counterexample): the claim says `get_blocked` resolves the companion
info segment via `find_info(entry.id)`, so that the selected info segment
shares the target entry's id. On the concrete table `stC1p` the target of
id 7 sits at index 0; the info segment sharing its id 7 is index 1 and its
extent table designates bytes [1,2,3,4], while the info segment of id 0
(the target's index) is index 2 and designates bytes [9,9,9,9]. `get`
returns [9,9,9,9]: the selected info segment is index 2, whose id (0)
differs from the target entry's id (7) — the source calls `find_info(index)`
(pup.cpp line 128), refuting the claim as stated. -/
theorem claim_C1_counterexample :
    stC1p.find 7 = .ok 0 ∧
    (stC1p.segEntries.getD 0 dummyEntry).id = 7 ∧
    stC1p.find_info 7 = .ok 1 ∧
    (PupParser.get A0 junk0 inflate0 cA ⟨stC1p, 0⟩ 7).1 = .ok [9, 9, 9, 9] ∧
    (PupParser.get A0 junk0 inflate0 cA ⟨stC1p, 0⟩ 7).1 ≠ .ok [1, 2, 3, 4] ∧
    (stC1p.segEntries.getD 2 dummyEntry).id ≠ (stC1p.segEntries.getD 0 dummyEntry).id := by
  decide

/-- C1 (amended): the companion info segment used for digest/extent parsing
is resolved by the target entry's table INDEX — `get_blocked` performs
`find_info(index)` (its definition above calls `m.parser.find_info index`),
so the selected info segment has is-info = true and id equal to the target
segment's index, and is the lowest-indexed such entry. -/
theorem claim_C1 (st : PupParser) (index k : Nat)
    (h : st.find_info index = .ok k) :
    k < st.headerEx.segment_count ∧
    (st.segEntries.getD k dummyEntry).is_info = true ∧
    (st.segEntries.getD k dummyEntry).id = index ∧
    ∀ j < k, ¬((st.segEntries.getD j dummyEntry).id = index ∧
      (st.segEntries.getD j dummyEntry).is_info = true) := by
  unfold PupParser.find_info PupParser.findPred at h
  obtain ⟨h1, h2, h3, h4⟩ := findPredGo_ok_spec st _ _ 0 k h
  simp only [Bool.and_eq_true, beq_iff_eq] at h3
  refine ⟨by omega, h3.2, h3.1, fun j hj hc => ?_⟩
  have hfalse := h4 j (by omega) hj
  simp only [Bool.and_eq_false_iff] at hfalse
  rcases hfalse with hfalse | hfalse
  · simp only [beq_eq_false_iff_ne, ne_eq] at hfalse
    exact hfalse hc.1
  · rw [hc.2] at hfalse
    simp at hfalse

/-- Witness for C1: on `stC1p`, `find_info 0` returns index 2, an
info-flagged entry whose id equals the target's index 0. -/
theorem claim_C1_witness :
    (stC1p.segEntries.getD 2 dummyEntry).is_info = true ∧
    (stC1p.segEntries.getD 2 dummyEntry).id = 0 := by
  have h := claim_C1 stC1p 0 2 (by decide)
  exact ⟨h.2.1, h.2.2.1⟩

/-- C3: the Block Decryptor. For a buffer whose length is a multiple of 16
it is plain CBC decryption under the abstract AES-128 block cipher; for an
unaligned buffer of at least 16 bytes, the aligned `len - len mod 16` bytes
are CBC-decrypted and the `len mod 16` tail bytes are XORed with the
keystream block obtained by CBC-re-encrypting (with the default all-zero
IV) the ciphertext of the last aligned 16-byte block, captured before any
decryption. Hypotheses: the block cipher produces 16-byte blocks in both
directions and the IV is 16 bytes, as AES-128-CBC guarantees. -/
theorem claim_C3 (A : List Nat → BlockCipher) (meta : PupSegmentMeta)
    (junk buffer : List Nat)
    (henc : ∀ b, ((A meta.data_key).enc b).length = 16)
    (hdec : ∀ b, ((A meta.data_key).dec b).length = 16)
    (hiv : meta.data_iv.length = 16) :
    (buffer.length % 16 = 0 →
      pup_decrypt A junk meta buffer =
        cbcDecrypt (A meta.data_key) meta.data_iv buffer) ∧
    (buffer.length % 16 ≠ 0 → 16 ≤ buffer.length →
      pup_decrypt A junk meta buffer =
        cbcDecrypt (A meta.data_key) meta.data_iv
          (buffer.take (buffer.length - buffer.length % 16)) ++
        List.zipWith (fun x y => x ^^^ y)
          (buffer.drop (buffer.length - buffer.length % 16))
          (cbcEncrypt (A meta.data_key) (List.replicate 16 0)
            ((buffer.drop (buffer.length - buffer.length % 16 - 16)).take 16))) := by
  constructor
  · intro h0
    simp only [pup_decrypt]
    rw [if_pos h0]
    simp [h0]
  · intro hne h16
    simp only [pup_decrypt]
    rw [if_neg hne]
    rw [if_pos (show buffer.length % 16 ≠ 0 ∧ 16 ≤ buffer.length - buffer.length % 16 from
      ⟨hne, by omega⟩)]
    set AL := buffer.length - buffer.length % 16 with hAL
    set OV := buffer.length % 16 with hOV
    set C := A meta.data_key with hC
    set ks := cbcEncrypt C (List.replicate 16 0) ((buffer.drop (AL - 16)).take 16) with hks
    have hprevlen : ((buffer.drop (AL - 16)).take 16).length = 16 := by
      simp only [List.length_take, List.length_drop]
      omega
    have hkslen : ks.length = 16 := by
      rw [hks, cbcEncrypt_single C _ hprevlen]
      exact henc _
    have htake : (buffer.take AL).length = AL := by
      simp only [List.length_take]
      omega
    have hp : (cbcDecrypt C meta.data_iv (buffer.take AL)).length = AL :=
      (cbcDecrypt_length C _ _ hdec hiv (by rw [htake]; omega)).trans htake
    have ht : (buffer.drop AL).length = OV := by
      simp only [List.length_drop]
      omega
    have hspec := tailXorLoop_spec (cbcDecrypt C meta.data_iv (buffer.take AL))
      (buffer.drop AL) ks OV (le_of_eq ht.symm) (by omega)
    rw [hp] at hspec
    rw [hspec]
    congr 1
    have htt : (buffer.drop AL).take OV = buffer.drop AL :=
      List.take_of_length_le (le_of_eq ht)
    have htd : (buffer.drop AL).drop OV = [] := by
      rw [List.drop_eq_nil_iff]
      omega
    rw [htt, htd, List.append_nil]
    have hz := zipWith_take_right (fun x y => x ^^^ y) (buffer.drop AL) ks
    rw [ht] at hz
    rw [hz]

/-- Witness for C3: both clauses evaluated on concrete buffers (a 16-byte
aligned one and a 17-byte unaligned one) under the concrete cipher
`cipher16`. -/
theorem claim_C3_witness :
    pup_decrypt A0 junk0 metaZero (List.range 16) =
      cbcDecrypt (A0 metaZero.data_key) metaZero.data_iv (List.range 16) ∧
    pup_decrypt A0 junk0 metaZero (List.range 17) =
      cbcDecrypt (A0 metaZero.data_key) metaZero.data_iv
        ((List.range 17).take ((List.range 17).length - (List.range 17).length % 16)) ++
      List.zipWith (fun x y => x ^^^ y)
        ((List.range 17).drop ((List.range 17).length - (List.range 17).length % 16))
        (cbcEncrypt (A0 metaZero.data_key) (List.replicate 16 0)
          (((List.range 17).drop
              ((List.range 17).length - (List.range 17).length % 16 - 16)).take 16)) :=
  ⟨(claim_C3 A0 metaZero junk0 (List.range 16)
      (by intro b; simp [A0, cipher16])
      (by intro b; simp [A0, cipher16])
      (by simp [metaZero])).1 (by decide),
   (claim_C3 A0 metaZero junk0 (List.range 17)
      (by intro b; simp [A0, cipher16])
      (by intro b; simp [A0, cipher16])
      (by simp [metaZero])).2 (by decide) (by decide)⟩

/-- C7: `find(id)` scans indices from 0 and returns the lowest index whose
entry has the requested id and is-info = false; a returned entry is never
info-flagged; and when no entry matches — in particular when the id occurs
only on info-flagged entries — it fails with NotFoundError. -/
theorem claim_C7 (st : PupParser) (id : Nat) :
    (∀ k, st.find id = .ok k →
      k < st.headerEx.segment_count ∧
      (st.segEntries.getD k dummyEntry).id = id ∧
      (st.segEntries.getD k dummyEntry).is_info = false ∧
      ∀ j < k, ¬((st.segEntries.getD j dummyEntry).id = id ∧
        (st.segEntries.getD j dummyEntry).is_info = false)) ∧
    ((∀ j < st.headerEx.segment_count,
        (st.segEntries.getD j dummyEntry).id = id →
        (st.segEntries.getD j dummyEntry).is_info = true) →
      st.find id = .error .NotFoundError) := by
  constructor
  · intro k h
    unfold PupParser.find PupParser.findPred at h
    obtain ⟨h1, h2, h3, h4⟩ := findPredGo_ok_spec st _ _ 0 k h
    simp only [Bool.and_eq_true, beq_iff_eq, Bool.not_eq_true'] at h3
    refine ⟨by omega, h3.1, h3.2, fun j hj hc => ?_⟩
    have hfalse := h4 j (by omega) hj
    simp only [Bool.and_eq_false_iff] at hfalse
    rcases hfalse with hfalse | hfalse
    · simp only [beq_eq_false_iff_ne, ne_eq] at hfalse
      exact hfalse hc.1
    · rw [hc.2] at hfalse
      simp at hfalse
  · intro hnone
    unfold PupParser.find PupParser.findPred
    apply findPredGo_none
    intro j h1 h2
    simp only [Bool.and_eq_false_iff, beq_eq_false_iff_ne, ne_eq, Bool.not_eq_false']
    by_cases hid : (st.segEntries.getD j dummyEntry).id = id
    · exact Or.inr (hnone j (by omega) hid)
    · exact Or.inl hid

/-- Witness for C7: id 100 appears nowhere in `stC1p`, so `find` fails with
NotFoundError. -/
theorem claim_C7_witness : stC1p.find 100 = .error .NotFoundError :=
  (claim_C7 stC1p 100).2 (by decide)

theorem getD_map_range {X : Type} (f : Nat → X) (n i : Nat) (d : X) (hi : i < n) :
    ((List.range n).map f).getD i d = f i := by
  rw [List.getD_eq_getElem?_getD, List.getElem?_map, List.getElem?_range hi]
  rfl

/-- C6: construction fails before any segment table is built whenever the
fixed header is invalid — with FormatError if magic, version, mode, endian
or attr differ from the required constants (checked first, in source
order), and with UnsupportedFeatureError if the JIG flag (bit 0) is set on
an otherwise valid header. In both cases the result is an error, so no
SegmentEntry or SegmentMeta array is produced. -/
theorem claim_C6 (arc : PupArchive) (verify : Bool) :
    (¬ goodHeader arc.header → PupParser.construct arc verify = .error .FormatError) ∧
    (goodHeader arc.header → arc.header.flags &&& 1 ≠ 0 →
      PupParser.construct arc verify = .error .UnsupportedFeatureError) := by
  constructor
  · intro hbad
    unfold PupParser.construct
    split_ifs with h1 h2 h3 h4 h5 h6 h7 <;>
      first
        | rfl
        | exact absurd ⟨not_ne_iff.mp h1, not_ne_iff.mp h2, not_ne_iff.mp h3,
            not_ne_iff.mp h4, not_ne_iff.mp h5⟩ hbad
  · intro hgood hjig
    obtain ⟨g1, g2, g3, g4, g5⟩ := hgood
    unfold PupParser.construct
    rw [if_neg (by simp [g1]), if_neg (by simp [g2]), if_neg (by simp [g3]),
        if_neg (by simp [g4]), if_neg (by simp [g5]), if_pos hjig]

/-- Witness for C6: a corrupted magic yields FormatError; the JIG flag on an
otherwise valid header yields UnsupportedFeatureError. -/
theorem claim_C6_witness :
    PupParser.construct arcBadMagic false = .error .FormatError ∧
    PupParser.construct arcJig true = .error .UnsupportedFeatureError :=
  ⟨(claim_C6 arcBadMagic false).1 (by decide),
   (claim_C6 arcJig true).2 (by decide) (by decide)⟩

/-- C8: whenever construction succeeds, the two parallel arrays both have
length segment_count, and position i of each array holds exactly the i-th
decoded entry/meta record of the archive — SegmentEntry[i] and
SegmentMeta[i] describe the same segment i. -/
theorem claim_C8 (arc : PupArchive) (verify : Bool) (st : PupParser)
    (h : PupParser.construct arc verify = .ok st) :
    st.segEntries.length = st.headerEx.segment_count ∧
    st.segMetas.length = st.headerEx.segment_count ∧
    ∀ i < st.headerEx.segment_count,
      st.segEntries.getD i dummyEntry = arc.entryAt i ∧
      st.segMetas.getD i dummyMeta = arc.metaAt i := by
  unfold PupParser.construct at h
  split_ifs at h
  injection h with h2
  subst h2
  refine ⟨by simp, by simp, fun i hi => ?_⟩
  simp only at hi
  exact ⟨getD_map_range arc.entryAt _ i dummyEntry hi,
         getD_map_range arc.metaAt _ i dummyMeta hi⟩

/-- Witness for C8: the archive `arc0` constructs successfully into `st0`,
whose arrays have the advertised lengths and index-matched contents. -/
theorem claim_C8_witness :
    st0.segEntries.length = st0.headerEx.segment_count ∧
    st0.segMetas.length = st0.headerEx.segment_count ∧
    (st0.segEntries.getD 0 dummyEntry = arc0.entryAt 0 ∧
     st0.segMetas.getD 0 dummyMeta = arc0.metaAt 0) := by
  have h := claim_C8 arc0 false st0 (by decide)
  exact ⟨h.1, h.2.1, h.2.2 0 (by decide)⟩

/-- C10: with the verify flag set, construction of any valid archive always
fails with the Unimplemented error, and only the verify check causes this —
the same archive with verify = false succeeds with both segment arrays
fully parsed (in the source the `throw` sits after both parse loops,
pup.cpp lines 101-103). -/
theorem claim_C10 (arc : PupArchive) (hgood : goodHeader arc.header)
    (hjig : arc.header.flags &&& 1 = 0) :
    PupParser.construct arc true = .error .Unimplemented ∧
    PupParser.construct arc false =
      .ok { header := arc.header, headerEx := arc.headerEx,
            segEntries := (List.range arc.headerEx.segment_count).map arc.entryAt,
            segMetas := (List.range arc.headerEx.segment_count).map arc.metaAt } := by
  obtain ⟨g1, g2, g3, g4, g5⟩ := hgood
  have hj : ¬(arc.header.flags &&& 1 ≠ 0) := by simp [hjig]
  constructor
  · unfold PupParser.construct
    rw [if_neg (by simp [g1]), if_neg (by simp [g2]), if_neg (by simp [g3]),
        if_neg (by simp [g4]), if_neg (by simp [g5]), if_neg hj]
    rfl
  · unfold PupParser.construct
    rw [if_neg (by simp [g1]), if_neg (by simp [g2]), if_neg (by simp [g3]),
        if_neg (by simp [g4]), if_neg (by simp [g5]), if_neg hj]
    rfl

/-- Witness for C10: the valid archive `arc0` with verify = true fails with
Unimplemented; with verify = false it parses completely. -/
theorem claim_C10_witness :
    PupParser.construct arc0 true = .error .Unimplemented ∧
    PupParser.construct arc0 false =
      .ok { header := arc0.header, headerEx := arc0.headerEx,
            segEntries := (List.range arc0.headerEx.segment_count).map arc0.entryAt,
            segMetas := (List.range arc0.headerEx.segment_count).map arc0.metaAt } :=
  claim_C10 arc0 (by decide) (by decide)

/-- A blocked extraction never writes the parser's fields: the machine it
returns carries the caller's parser component unchanged. -/
theorem get_blocked_frame (A : List Nat → BlockCipher) (junk : List Nat)
    (inflate : List Nat → Nat → Int × List Nat) (c : Nat → Nat)
    (m : PupMachine) (idx : Nat) :
    (PupParser.get_blocked A junk inflate c m idx).2.parser = m.parser := by
  unfold PupParser.get_blocked
  cases hfi : m.parser.find_info idx with
  | error e => simp only [hfi]
  | ok ii =>
    simp only [hfi]
    split
    · simp [readM, seekSet]
    · rw [foldl_processExtentM_frame]
      simp [readM, seekSet]

/-- A blocked extraction's result does not depend on the stream position it
starts from: every read is preceded by an absolute seek. -/
theorem get_blocked_pos (A : List Nat → BlockCipher) (junk : List Nat)
    (inflate : List Nat → Nat → Int × List Nat) (c : Nat → Nat)
    (st : PupParser) (p1 p2 idx : Nat) :
    (PupParser.get_blocked A junk inflate c ⟨st, p1⟩ idx).1 =
      (PupParser.get_blocked A junk inflate c ⟨st, p2⟩ idx).1 := by
  unfold PupParser.get_blocked
  cases hfi : PupParser.find_info st idx with
  | error e => simp only [hfi]
  | ok ii => simp only [hfi]; rfl

/-- C9: after construction the parser's own state (header, headerEx and the
two segment arrays — the fields of `PupParser`) is immutable: every `get`
call, succeeding or failing, returns a machine whose parser component
equals the input one, and two `get` calls with the same id over the same
stream contents produce identical results regardless of the stream position
each starts from (so repeated calls yield identical output buffers). -/
theorem claim_C9 (A : List Nat → BlockCipher) (junk : List Nat)
    (inflate : List Nat → Nat → Int × List Nat) (c : Nat → Nat)
    (st : PupParser) (pos pos' id : Nat) :
    (PupParser.get A junk inflate c ⟨st, pos⟩ id).2.parser = st ∧
    (PupParser.get A junk inflate c ⟨st, pos⟩ id).1 =
      (PupParser.get A junk inflate c ⟨st, pos'⟩ id).1 := by
  constructor
  · unfold PupParser.get
    cases hf : PupParser.find st id with
    | error e => simp only [hf]
    | ok idx =>
      simp only [hf]
      by_cases hb : (st.segEntries.getD idx dummyEntry).has_blocks
      · simp only [hb, if_true]
        exact get_blocked_frame A junk inflate c ⟨st, pos⟩ idx
      · simp only [hb, if_false]
        rfl
  · unfold PupParser.get
    cases hf : PupParser.find st id with
    | error e => simp only [hf]
    | ok idx =>
      simp only [hf]
      by_cases hb : (st.segEntries.getD idx dummyEntry).has_blocks
      · simp only [hb, if_true]
        exact get_blocked_pos A junk inflate c st pos pos' idx
      · simp only [hb, if_false]
        rfl

/-- C4: for an encrypted entry, the extent loop of `get_blocked` (the fold
of `processExtentM`, whose encrypted branch calls `crypto_decrypt`) equals
assembling from the list of independently decrypted blocks: each raw block
is passed through the Block Decryptor `pup_decrypt` (the routine with the
custom ciphertext-stealing tail handling) under the target segment's
key/IV, via a `List.map` whose elements depend only on that block's own raw
bytes and the fixed key/IV — no CBC state is carried from one block to the
next. -/
theorem claim_C4 (A : List Nat → BlockCipher) (junk : List Nat)
    (inflate : List Nat → Nat → Int × List Nat) (c : Nat → Nat)
    (entry : PupSegmentEntry) (meta : PupSegmentMeta) (block_size : Nat)
    (extents : List PupExtent) (acc : Nat × List Nat × PupMachine)
    (hEnc : entry.is_encrypted = true) :
    extents.foldl (processExtentM A junk inflate c entry meta block_size) acc =
      (extents.zip (extents.map fun e =>
        pup_decrypt A junk meta (readBytes c (entry.offset + e.offset) e.size))).foldl
        (assembleFromDecrypted inflate entry block_size) acc := by
  induction extents generalizing acc with
  | nil => rfl
  | cons e es ih =>
    rw [List.map_cons, List.zip_cons_cons, List.foldl_cons, List.foldl_cons, ← ih]
    congr 1
    simp only [processExtentM, assembleFromDecrypted, crypto_decrypt, readM, seekSet, hEnc,
      if_true]

/-- Witness for C4: evaluated on a one-extent encrypted segment with the
concrete cipher. -/
theorem claim_C4_witness :
    extsW.foldl (processExtentM A0 junk0 inflate0 cw4 entryEncW metaZero 16) accW =
      (extsW.zip (extsW.map fun e =>
        pup_decrypt A0 junk0 metaZero (readBytes cw4 (entryEncW.offset + e.offset) e.size))).foldl
        (assembleFromDecrypted inflate0 entryEncW 16) accW :=
  claim_C4 A0 junk0 inflate0 cw4 entryEncW metaZero 16 extsW accW rfl

/-- C2: for an unencrypted, uncompressed blocked segment each extent
contributes exactly cur_size = min(block_size, left_size) bytes to the
output and decrements left_size by cur_size (first conjunct); and on the
spec's 3-block scenario — extents [(0,16),(16,16),(16,20)], block_size 16,
file_size 36, info table at offset 100 of the stream — `get` returns
exactly the concatenation of the three source blocks each truncated to its
cur_size (16, 16 and 4 bytes), 36 bytes in total (second and third
conjuncts). The third block's region is its first 4 bytes: the source's
`memcpy` writes all 20 bytes, but only the 4 bytes inside the output
vector are part of the returned buffer (out-of-bounds write flagged in
spec section 9, modelled by `writeRegion`). -/
theorem claim_C2 (A : List Nat → BlockCipher) (junk : List Nat)
    (inflate : List Nat → Nat → Int × List Nat) (c : Nat → Nat) (pos : Nat)
    (hInfo : readBytes c 100 24 = extentBytesC2) :
    (∀ (entry : PupSegmentEntry) (meta : PupSegmentMeta) (block_size : Nat)
        (acc : Nat × List Nat × PupMachine) (e : PupExtent),
      entry.is_encrypted = false → entry.is_compressed = false →
      (processExtentM A junk inflate c entry meta block_size acc e).2.1.length =
          acc.2.1.length + min block_size acc.1 ∧
      (processExtentM A junk inflate c entry meta block_size acc e).1 =
          acc.1 - min block_size acc.1) ∧
    (PupParser.get A junk inflate c ⟨stC2, pos⟩ 42).1 =
      .ok (readBytes c 1000 16 ++ (readBytes c 1016 16 ++ (readBytes c 1016 20).take 4)) ∧
    (∀ buf, (PupParser.get A junk inflate c ⟨stC2, pos⟩ 42).1 = .ok buf →
      buf.length = 36) := by
  have hmain : (PupParser.get A junk inflate c ⟨stC2, pos⟩ 42).1 =
      .ok (readBytes c 1000 16 ++ (readBytes c 1016 16 ++ (readBytes c 1016 20).take 4)) := by
    have hfind : PupParser.find stC2 42 = Except.ok 0 := by decide
    have hinfo : PupParser.find_info stC2 0 = Except.ok 1 := by decide
    have hb : (stC2.segEntries.getD 0 dummyEntry).has_blocks = true := by decide
    have hpe : parseExtents extentBytesC2 0 3 =
        [⟨0, 16⟩, ⟨16, 16⟩, ⟨16, 20⟩] := by decide
    simp only [PupParser.get, hfind, hb, if_true]
    simp only [PupParser.get_blocked, hinfo]
    simp only [show stC2.segEntries.getD 0 dummyEntry = targetC2 from rfl,
      show stC2.segEntries.getD 1 dummyEntry = infoC2 from rfl,
      show stC2.segMetas.getD 0 dummyMeta = metaZero from rfl,
      show stC2.segMetas.getD 1 dummyMeta = metaZero from rfl]
    simp only [seekSet, readM]
    simp only [show infoC2.is_encrypted = false from rfl,
      show infoC2.is_compressed = false from rfl,
      show infoC2.has_digests = false from rfl,
      show infoC2.has_extents = true from rfl,
      show infoC2.offset = 100 from rfl, show infoC2.file_size = 24 from rfl,
      show targetC2.block_count = 3 from rfl, show targetC2.block_size = 16 from rfl,
      show targetC2.file_size = 36 from rfl]
    simp only [Bool.false_eq_true, if_false, if_true, hInfo, hpe]
    simp only [List.foldl_cons, List.foldl_nil, processExtentM, seekSet, readM]
    simp only [show targetC2.is_encrypted = false from rfl,
      show targetC2.is_compressed = false from rfl,
      show targetC2.offset = 1000 from rfl, Bool.false_eq_true, if_false]
    norm_num
    rw [writeRegion_of_length (readBytes_length c 1000 16),
        writeRegion_of_length (readBytes_length c 1016 16),
        writeRegion_of_le (show (4 : Nat) ≤ (readBytes c 1016 20).length by simp)]
  refine ⟨fun entry meta block_size acc e he hc => ?_, hmain, fun buf h => ?_⟩
  · constructor
    · simp only [processExtentM, he, hc, Bool.false_eq_true, if_false]
      simp
    · simp only [processExtentM, he, hc, Bool.false_eq_true, if_false]
  · rw [hmain] at h
    injection h with h2
    subst h2
    simp

/-- Witness for C2: the scenario evaluated on the concrete contents `cW`
(whose info region encodes the extent table): the output is the truncated
concatenation and has 36 bytes. -/
theorem claim_C2_witness :
    (PupParser.get A0 junk0 inflate0 cW ⟨stC2, 0⟩ 42).1 =
      .ok (readBytes cW 1000 16 ++ (readBytes cW 1016 16 ++ (readBytes cW 1016 20).take 4)) ∧
    ((PupParser.get A0 junk0 inflate0 cW ⟨stC2, 0⟩ 42).1 =
        .ok (readBytes cW 1000 16 ++ (readBytes cW 1016 16 ++ (readBytes cW 1016 20).take 4)) →
      (readBytes cW 1000 16 ++ (readBytes cW 1016 16 ++ (readBytes cW 1016 20).take 4)).length = 36) := by
  have h := claim_C2 A0 junk0 inflate0 cW 0 (by decide)
  exact ⟨h.2.1, fun hh => h.2.2 _ hh⟩

/-- C5 (counterexample): the claim says extraction fails with
DecompressError whenever the decompression primitive signals corruption.
On the compressed segment `stC5` with a primitive that reports zlib
Z_DATA_ERROR (-3) and produces no bytes on every call, `get` still returns
a buffer — 36 zero bytes (the value-initialized regions) — because the
source discards `uncompress`'s return code (pup.cpp line 182). -/
theorem claim_C5_counterexample :
    (PupParser.get A0 junk0 inflateBad cW ⟨stC5, 0⟩ 42).1 = .ok (List.replicate 36 0) ∧
    (inflateBad (readBytes cW 1000 16) 16).1 = -3 := by
  decide

/-- C5 (amended): the extractor invokes the decompression primitive with
compressed length cur_zsize = (extent.size & ~0xF) − (extent.size & 0xF)
(first conjunct: that formula, written with the claim's 64-bit masks,
equals the model's arithmetic used by `processExtentM`) and expected output
length cur_size; but the primitive's status signal is ignored: the result
of `get` is unchanged under any reinterpretation of the status component
(second conjunct), and extraction never fails with DecompressError (third
conjunct). -/
theorem claim_C5 (A : List Nat → BlockCipher) (junk : List Nat)
    (i1 i2 : List Nat → Nat → Int × List Nat) (c : Nat → Nat)
    (m : PupMachine) (id n : Nat)
    (hn : n < 2 ^ 64)
    (h12 : ∀ z u, (i1 z u).2 = (i2 z u).2) :
    ((n &&& 0xFFFFFFFFFFFFFFF0) - (n &&& 0xF) = (n - n % 16) - n % 16) ∧
    (PupParser.get A junk i1 c m id = PupParser.get A junk i2 c m id) ∧
    ((PupParser.get A junk i1 c m id).1 ≠ .error .DecompressError) := by
  refine ⟨cur_zsize_mask n hn, ?_, ?_⟩
  · unfold PupParser.get
    cases hf : m.parser.find id with
    | error e => simp only [hf]
    | ok idx =>
      simp only [hf]
      by_cases hb : (m.parser.segEntries.getD idx dummyEntry).has_blocks
      · simp only [hb, if_true]
        unfold PupParser.get_blocked
        cases hfi : m.parser.find_info idx with
        | error e => simp only [hfi]
        | ok ii =>
          simp only [hfi]
          rw [foldl_processExtentM_inflate A junk i1 i2 h12]
      · rw [if_neg hb, if_neg hb]
  · unfold PupParser.get
    cases hf : m.parser.find id with
    | error e =>
      have he : e = .NotFoundError := by
        unfold PupParser.find PupParser.findPred at hf
        exact (findPredGo_err_spec m.parser _ _ 0 e hf).1
      subst he
      simp only [hf]
      simp
    | ok idx =>
      simp only [hf]
      by_cases hb : (m.parser.segEntries.getD idx dummyEntry).has_blocks
      · simp only [hb, if_true]
        unfold PupParser.get_blocked
        cases hfi : m.parser.find_info idx with
        | error e =>
          have he : e = .NotFoundError := by
            unfold PupParser.find_info PupParser.findPred at hfi
            exact (findPredGo_err_spec m.parser _ _ 0 e hfi).1
          subst he
          simp only [hfi]
          simp
        | ok ii =>
          simp only [hfi]
          split
          · simp
          · simp
      · simp only [hb, if_false]
        simp [PupParser.get_nonblocked]

/-- Witness for C5 (amended): instantiated at extent size 36, with the
success-reporting and a different-status decompression stand-in producing
the same bytes. -/
theorem claim_C5_witness :
    ((36 &&& 0xFFFFFFFFFFFFFFF0) - ((36 : Nat) &&& 0xF) = (36 - 36 % 16) - 36 % 16) ∧
    (PupParser.get A0 junk0 inflate0 cW ⟨stC5, 5⟩ 42 =
      PupParser.get A0 junk0 inflateAlt cW ⟨stC5, 5⟩ 42) ∧
    ((PupParser.get A0 junk0 inflate0 cW ⟨stC5, 5⟩ 42).1 ≠ .error .DecompressError) :=
  claim_C5 A0 junk0 inflate0 inflateAlt cW ⟨stC5, 5⟩ 42 36 (by norm_num) (fun z u => rfl)
